import Mathlib

/-!
Verification of the strutil growable-string library (src/strutil.c).

Shallow embedding conventions:
* A C byte is a `Nat` (< 256 in faithful instances); the NUL terminator is
  never part of the modelled content: `Str.data = some l` means the C buffer
  holds the bytes of `l` followed by the 0 sentinel, `none` means the
  `data` pointer is NULL.
* A possibly-NULL C string argument is an `Option (List Nat)`.
* A possibly-NULL handle argument is an `Option Str`; operations return the
  C `int` status together with the (possibly updated) handle.
* Allocation (`malloc`/`realloc`/`calloc`) is modelled as always succeeding:
  the out-of-memory paths of the C code are exactly the paths absent from
  this model, so every failure the model can produce is a non-OOM failure.
* `pthread` locking is not modelled: every operation is a single atomic
  step (the C code holds the per-handle lock for the whole operation).
* Faithfulness caveat recorded as hypotheses in the theorems: a C string
  cannot contain an interior 0 byte, so theorems quantifying over contents
  or word arguments carry `CText`/`0 ∉ l` style hypotheses where the
  byte-list model and the C-string abstraction must agree.
-/

namespace Strutil

/-- The size_t modulus of the modelled LP64 platform. -/
def SZMOD : Nat := 2 ^ 64

/-- `MAX_STRING_SIZE = (SIZE_MAX / 100) * 95` from src/strutil.c line 9. -/
def MAX_STRING_SIZE : Nat := ((SZMOD - 1) / 100) * 95

/-- size_t subtraction `a - b` with wraparound (values reduced mod 2^64). -/
def szSub (a b : Nat) : Nat := (a % SZMOD + (SZMOD - b % SZMOD)) % SZMOD

/-- A byte list is representable as C-string text: nonzero bytes, each < 256. -/
def CText (l : List Nat) : Prop := ∀ b ∈ l, 0 < b ∧ b < 256

instance (l : List Nat) : Decidable (CText l) := by
  unfold CText; infer_instance

/-- `struct Str` (include/strutil.h): `data` buffer and the `is_dynamic`
(heap-owned) flag.  The mutex is not modelled (see file header). -/
structure Str where
  data : Option (List Nat)
  is_dynamic : Bool
deriving Repr, DecidableEq

/-- `str_init`: calloc'd handle — `data = NULL`, `is_dynamic = 1`. -/
def str_init : Str := ⟨none, true⟩

/-- `str_add` (src/strutil.c lines 23-56): append `d` to the content;
`-EINVAL` (= -22) when the handle or the argument is NULL. -/
def str_add (self : Option Str) (d : Option (List Nat)) : Int × Option Str :=
  match self, d with
  | none, _ => (-22, none)
  | some s, none => (-22, some s)
  | some s, some d =>
    match s.data with
    | some old => (0, some { s with data := some (old ++ d) })
    | none => (0, some { s with data := some d })

/-- `matchesAt hay needle`: `needle` is letter-for-letter a prefix of `hay`. -/
def matchesAt : List Nat → List Nat → Bool
  | _, [] => true
  | [], _ :: _ => false
  | h :: hs, n :: ns => h = n && matchesAt hs ns

/-- `strstr`: index of the first occurrence of `needle` in `hay`
(`some 0` for an empty needle, as in C). -/
def strstrIdx (hay needle : List Nat) : Option Nat :=
  if matchesAt hay needle then some 0
  else
    match hay with
    | [] => none
    | _ :: t => (strstrIdx t needle).map (· + 1)

/-- `strrchr`: index of the last occurrence of byte `c` in `l`
(the NUL-terminator case `c = 0` is handled at the call site). -/
def strrchrIdx : List Nat → Nat → Option Nat
  | [], _ => none
  | c :: rest, s =>
    match strrchrIdx rest s with
    | some i => some (i + 1)
    | none => if c = s then some 0 else none

/-- `str_pop_back` (src/strutil.c lines 118-148): truncate the content just
after the last occurrence of `sep`.  Absent/empty content gives `-1`; a
separator that does not occur gives `-EINVAL`.  For `sep = 0` the C
`strrchr` finds the terminator itself and the following store lands one
byte past the buffer (undefined behaviour); the observable content is
unchanged and the call reports success, which is what we record here. -/
def str_pop_back (self : Option Str) (sep : Nat) : Int × Option Str :=
  match self with
  | none => (-1, none)
  | some s =>
    match s.data with
    | none => (-1, some s)
    | some l =>
      if l.length = 0 then (-1, some s)
      else if sep = 0 then (0, some s)
      else
        match strrchrIdx l sep with
        | none => (-22, some s)
        | some i => (0, some { s with data := some (l.take (i + 1)) })

/-- `str_get_size` (src/strutil.c lines 165-172). -/
def str_get_size (self : Option Str) : Nat :=
  match self with
  | none => 0
  | some s =>
    match s.data with
    | none => 0
    | some l => l.length

/-- `str_rem_word` (src/strutil.c lines 264-304): remove the first
occurrence of `needle` from the content.  `-1` for NULL handle/content/
needle, `-EINVAL` both for an over-long needle and for no occurrence. -/
def str_rem_word (self : Option Str) (needle : Option (List Nat)) :
    Int × Option Str :=
  match self with
  | none => (-1, none)
  | some s =>
    match s.data, needle with
    | none, _ => (-1, some s)
    | some _, none => (-1, some s)
    | some l, some nd =>
      if nd.length > l.length then (-22, some s)
      else
        match strstrIdx l nd with
        | none => (-22, some s)
        | some i => (0, some { s with data := some (l.take i ++ l.drop (i + nd.length)) })

/-- `str_swap_word` (src/strutil.c lines 307-349): replace the first
occurrence of `w1` by `w2`, building a fresh buffer; `-1` when the handle,
content, either word is NULL, the handle is not heap-owned, or `w1` does
not occur. -/
def str_swap_word (self : Option Str) (w1 w2 : Option (List Nat)) :
    Int × Option Str :=
  match self with
  | none => (-1, none)
  | some s =>
    match s.data, s.is_dynamic, w1, w2 with
    | none, _, _, _ => (-1, some s)
    | some _, false, _, _ => (-1, some s)
    | some _, true, none, _ => (-1, some s)
    | some _, true, some _, none => (-1, some s)
    | some l, true, some a, some b =>
      match strstrIdx l a with
      | none => (-1, some s)
      | some i => (0, some { s with data := some (l.take i ++ b ++ l.drop (i + a.length)) })

/-- `str_to_upper` (src/strutil.c lines 352-369): clear bit 5 of each byte
in `[a-z]` (that is, subtract 32). -/
def str_to_upper (self : Option Str) : Int × Option Str :=
  match self with
  | none => (-1, none)
  | some s =>
    match s.data with
    | none => (-1, some s)
    | some l =>
      (0, some { s with data := some (l.map fun c => if 97 ≤ c ∧ c ≤ 122 then c - 32 else c) })

/-- `str_to_lower` (src/strutil.c lines 372-390): set bit 5 of each byte
in `[A-Z]` (that is, add 32). -/
def str_to_lower (self : Option Str) : Int × Option Str :=
  match self with
  | none => (-1, none)
  | some s =>
    match s.data with
    | none => (-1, some s)
    | some l =>
      (0, some { s with data := some (l.map fun c => if 65 ≤ c ∧ c ≤ 90 then c + 32 else c) })

/-- The scanning loop of `str_to_title_case` (src/strutil.c lines 403-414):
`flag` starts true; a lowercase byte seen with the flag set is uppercased
and clears the flag; a space sets the flag; nothing else touches it. -/
def titleLoop : List Nat → Bool → List Nat
  | [], _ => []
  | c :: rest, flag =>
    if flag ∧ 97 ≤ c ∧ c ≤ 122 then (c - 32) :: titleLoop rest false
    else if c = 32 then c :: titleLoop rest true
    else c :: titleLoop rest flag

/-- `str_to_title_case` (src/strutil.c lines 393-418): `-1` when the
content is absent or empty, otherwise runs `titleLoop` with the flag set. -/
def str_to_title_case (self : Option Str) : Int × Option Str :=
  match self with
  | none => (-1, none)
  | some s =>
    match s.data with
    | none => (-1, some s)
    | some l =>
      if l.length = 0 then (-1, some s)
      else (0, some { s with data := some (titleLoop l true) })

/-- The two-pointer swap loop of `str_reverse` (src/strutil.c lines
436-442): while `head < tail`, exchange the bytes at `head` and `tail`. -/
def revLoop (data : List Nat) (head tail : Nat) : List Nat :=
  if h : head < tail then
    revLoop ((data.set head (data.getD tail 0)).set tail (data.getD head 0)) (head + 1) (tail - 1)
  else data
termination_by tail - head
decreasing_by simp_wf; omega

/-- `str_reverse` (src/strutil.c lines 420-446): `-1` when the content is
absent or empty, otherwise the in-place two-pointer swap. -/
def str_reverse (self : Option Str) : Int × Option Str :=
  match self with
  | none => (-1, none)
  | some s =>
    match s.data with
    | none => (-1, some s)
    | some l =>
      if l.length = 0 then (-1, some s)
      else (0, some { s with data := some (revLoop l 0 (l.length - 1)) })

/-! ### get_dyn_input (src/strutil.c lines 216-261)

The input stream is the list of bytes `getchar` will deliver before EOF;
a byte `10` is the newline.  The staging buffer is modelled by the bytes
stored so far (`acc`) together with the C variable `current_size` (`cs`);
allocation always succeeds, so the only `NULL` return the model produces
is the size-bound abort. -/

/-- The bytes of the current line: everything before the first newline. -/
def streamLine (stream : List Nat) : List Nat :=
  stream.takeWhile (fun b => b ≠ 10)

/-- The character loop of `get_dyn_input`: for each byte before newline /
EOF, grow `cs` by the chunk size (10) when `length + 1 ≥ cs`, then abort
with `NULL` when `cs ≥ maxm1` (the caller's `max_str_size - 1` computed in
size_t), else store the byte. -/
def gdiLoop (maxm1 : Nat) : Nat → List Nat → List Nat → Option (List Nat)
  | _, acc, [] => some acc
  | cs, acc, c :: rest =>
    if c = 10 then some acc
    else
      let cs2 := if acc.length + 1 ≥ cs then cs + 10 else cs
      if cs2 ≥ maxm1 then none
      else gdiLoop maxm1 cs2 (acc ++ [c]) rest

/-- `max_str_size - 1` in size_t arithmetic (wraps for `max_str_size = 0`). -/
def szm1 (m : Nat) : Nat := szSub m 1

/-- `get_dyn_input`: run the loop from `current_size = 10`, `length = 0`;
on success the exact-size copy is made with `strncpy(result, buffer,
strlen(buffer))`, which truncates the stored bytes at the first 0 byte. -/
def get_dyn_input (m : Nat) (stream : List Nat) : Option (List Nat) :=
  (gdiLoop (szm1 m) 10 [] stream).map (fun l => l.takeWhile (fun b => b ≠ 0))

/-- `str_input` (src/strutil.c lines 59-71): requires absent content, then
stores one line read from the stream; `-1` if the read yields `NULL`. -/
def str_input (self : Option Str) (stream : List Nat) : Int × Option Str :=
  match self with
  | none => (-1, none)
  | some s =>
    match s.data with
    | some _ => (-1, some s)
    | none =>
      match get_dyn_input MAX_STRING_SIZE stream with
      | some l => (0, some { s with data := some l })
      | none => (-1, some { s with data := none })

/-- `str_add_input` (src/strutil.c lines 74-115): like `str_input` when
empty (code `-2` on read failure), otherwise reads a line bounded by
`MAX_STRING_SIZE - strlen(data)` and concatenates it. -/
def str_add_input (self : Option Str) (stream : List Nat) : Int × Option Str :=
  match self with
  | none => (-1, none)
  | some s =>
    match s.data with
    | none =>
      match get_dyn_input MAX_STRING_SIZE stream with
      | some l => (0, some { s with data := some l })
      | none => (-2, some { s with data := none })
    | some l =>
      match get_dyn_input (szSub MAX_STRING_SIZE l.length) stream with
      | none => (-1, some s)
      | some buf => (0, some { s with data := some (l ++ buf) })

/-! ### The operation index used by the cross-cutting claims -/

/-- One call to an int-returning GrowableString operation, with its
non-handle arguments. -/
inductive SOp where
  | add (d : Option (List Nat))
  | input
  | addInput
  | popBack (sep : Nat)
  | remWord (nd : Option (List Nat))
  | swapWord (w1 w2 : Option (List Nat))
  | toUpper
  | toLower
  | toTitle
  | reverse
deriving Repr, DecidableEq

/-- Dispatch an operation on a handle; `stream` feeds the two input
operations and is ignored by the rest. -/
def runOp : SOp → Option Str → List Nat → Int × Option Str
  | .add d, s, _ => str_add s d
  | .input, s, stream => str_input s stream
  | .addInput, s, stream => str_add_input s stream
  | .popBack sep, s, _ => str_pop_back s sep
  | .remWord nd, s, _ => str_rem_word s nd
  | .swapWord w1 w2, s, _ => str_swap_word s w1 w2
  | .toUpper, s, _ => str_to_upper s
  | .toLower, s, _ => str_to_lower s
  | .toTitle, s, _ => str_to_title_case s
  | .reverse, s, _ => str_reverse s

/-- The in-place transform operations: every operation that requires
already-present content (as opposed to the append/read operations that
create it). -/
def isTransform : SOp → Bool
  | .popBack _ => true
  | .remWord _ => true
  | .swapWord _ _ => true
  | .toUpper => true
  | .toLower => true
  | .toTitle => true
  | .reverse => true
  | _ => false

/-- The observable content of a possibly-absent handle. -/
def contentOf : Option Str → Option (List Nat)
  | none => none
  | some s => s.data

/-! ### HandleRegistry (src/strutil.c lines 463-545)

The registry is a singly linked list manipulated through raw pointers, and
the claims are about pointer identity, dangling nodes and an out-of-bounds
scan, so the heap is explicit: an address is an index into `heap`, a freed
or never-allocated cell is `none`.  A `Str` handle is identified by a
nonzero `Nat` (0 plays NULL).  A result of `none` from an operation marks
undefined behaviour (dereferencing a freed node, or the control flow
falling off the end of `pointer_counter_free`, which has no return
statement after its scan loop). -/

/-- `struct Pointer_counter`: the referenced handle, the forward link and
the counter (the per-node mutex is not modelled). -/
structure RNode where
  str_ptr : Nat
  next : Option Nat
  counter : Nat
deriving Repr, DecidableEq

/-- The registry heap plus the caller's `head` pointer. -/
structure RegState where
  heap : List (Option RNode)
  head : Option Nat
deriving Repr, DecidableEq

/-- `pointer_counter_create` yields a zeroed node (its `str_ptr` points at
a freshly calloc'd `Str` never equal to any caller handle, written 0 here;
`pointer_counter_add` overwrites the field before it is ever read). -/
def freshRNode : RNode := ⟨0, none, 0⟩

/-- The tail-finding walk `while (head_ptr->next) head_ptr = head_ptr->next`
of `pointer_counter_add`; `none` marks a dangling dereference or a cycle
(fuel exhaustion). -/
def walkTail (heap : List (Option RNode)) : Nat → Nat → Option Nat
  | _, 0 => none
  | a, fuel + 1 =>
    match heap.getD a none with
    | none => none
    | some nd =>
      match nd.next with
      | none => some a
      | some b => walkTail heap b fuel

/-- `pointer_counter_add` (src/strutil.c lines 488-518): allocate a node;
if the list is empty install it as head, else append it at the tail; the
new node's counter is incremented from 0 to 1 (the head's counter is never
touched by later adds). -/
def pointer_counter_add (st : RegState) (p : Nat) : Option (Int × RegState) :=
  if p = 0 then some (-1, st)
  else
    let addr := st.heap.length
    let heap1 := st.heap ++ [some freshRNode]
    match st.head with
    | none => some (0, ⟨heap1.set addr (some ⟨p, none, 1⟩), some addr⟩)
    | some h0 =>
      match walkTail heap1 h0 (heap1.length + 1) with
      | none => none
      | some t =>
        match heap1.getD t none with
        | none => none
        | some tn =>
          some (0, ⟨(heap1.set t (some { tn with next := some addr })).set addr
                      (some ⟨p, none, 1⟩), st.head⟩)

/-- The scan loop of `pointer_counter_free`: at most `fuel` iterations
(the head's counter); `iter` is `pc_iter`, `back` is `pc_iter_back`.
Exhausting the iterations reaches the end of the non-void function with no
return statement: undefined behaviour, `none`. -/
def freeLoop (heap : List (Option RNode)) (head : Option Nat) (p : Nat) :
    Option Nat → Option Nat → Nat → Option (Int × RegState)
  | _, _, 0 => none
  | none, _, _ + 1 => some (-1, ⟨heap, head⟩)
  | some ia, back, fuel + 1 =>
    match heap.getD ia none with
    | none => none
    | some nd =>
      if nd.str_ptr = p then
        match back with
        | none => none
        | some ba =>
          match heap.getD ba none with
          | none => none
          | some bn =>
            some (0, ⟨(heap.set ba (some { bn with next := nd.next })).set ia none, head⟩)
      else
        match back with
        | none => none
        | some ba =>
          match heap.getD ba none with
          | none => none
          | some bn => freeLoop heap head p nd.next bn.next fuel

/-- `pointer_counter_free` (src/strutil.c lines 520-545): when the head
node matches, it is freed but `*head` is left pointing at it; otherwise
scan at most `(*head)->counter` following nodes, unlink and free a match. -/
def pointer_counter_free (st : RegState) (p : Nat) : Option (Int × RegState) :=
  match st.head with
  | none => some (-1, st)
  | some h0 =>
    if p = 0 then some (-1, st)
    else
      match st.heap.getD h0 none with
      | none => none
      | some hn =>
        if hn.str_ptr = p then some (0, ⟨st.heap.set h0 none, st.head⟩)
        else freeLoop st.heap st.head p hn.next (some h0) hn.counter

/-- The chain of live nodes reachable from an address; `none` when the
chain dereferences a freed cell or exceeds the fuel (cycle). -/
def chainFrom (heap : List (Option RNode)) : Option Nat → Nat → Option (List RNode)
  | none, _ => some []
  | some _, 0 => none
  | some a, fuel + 1 =>
    match heap.getD a none with
    | none => none
    | some nd => (chainFrom heap nd.next fuel).map (nd :: ·)

/-- The observable node chain of a registry state. -/
def regChain (st : RegState) : Option (List RNode) :=
  chainFrom st.heap st.head (st.heap.length + 1)

/-! ## Helper lemmas -/

/-- The empty needle matches at the front of any haystack. -/
theorem strstrIdx_nil (l : List Nat) : strstrIdx l [] = some 0 := by
  cases l <;> simp [strstrIdx, matchesAt]

/-- `strstrIdx` returns `some i` when the needle matches at `i` and at no
earlier position: it finds the first occurrence. -/
theorem strstrIdx_of_first (hay nd : List Nat) (i : Nat)
    (h1 : matchesAt (hay.drop i) nd = true)
    (h2 : ∀ j, j < i → matchesAt (hay.drop j) nd = false) :
    strstrIdx hay nd = some i := by
  induction hay generalizing i with
  | nil =>
    cases i with
    | zero => simp_all [strstrIdx]
    | succ n =>
      exfalso
      have h0 := h2 0 (Nat.succ_pos n)
      simp only [List.drop_nil] at h0 h1
      rw [h0] at h1
      exact Bool.false_ne_true h1
  | cons c t ih =>
    cases i with
    | zero =>
      simp only [List.drop_zero] at h1
      simp [strstrIdx, h1]
    | succ n =>
      have h0 := h2 0 (Nat.succ_pos n)
      simp only [List.drop_zero] at h0
      have ht : strstrIdx t nd = some n := by
        apply ih
        · simpa using h1
        · intro j hj
          simpa using h2 (j + 1) (by omega)
      simp [strstrIdx, h0, ht]

/-- Reading at position `a.length` of `a ++ l` reads position 0 of `l`. -/
theorem getD_append_len (a l : List Nat) (d : Nat) :
    (a ++ l).getD a.length d = l.getD 0 d := by
  induction a with
  | nil => rfl
  | cons c t ih => simpa using ih

/-- Reading at position `a.length + n` of `a ++ l` reads position `n` of `l`. -/
theorem getD_append_add (a l : List Nat) (n d : Nat) :
    (a ++ l).getD (a.length + n) d = l.getD n d := by
  induction a with
  | nil => simp
  | cons c t ih =>
    have h : (c :: t).length + n = (t.length + n) + 1 := by simp; omega
    rw [h, List.cons_append, List.getD_cons_succ, ih]

/-- Setting position `a.length` of `a ++ l` sets position 0 of `l`. -/
theorem set_append_len (a l : List Nat) (v : Nat) :
    (a ++ l).set a.length v = a ++ l.set 0 v := by
  induction a with
  | nil => rfl
  | cons c t ih => simpa using ih

/-- Setting position `a.length + n` of `a ++ l` sets position `n` of `l`. -/
theorem set_append_add (a l : List Nat) (n v : Nat) :
    (a ++ l).set (a.length + n) v = a ++ l.set n v := by
  induction a with
  | nil => simp
  | cons c t ih =>
    have h : (c :: t).length + n = (t.length + n) + 1 := by simp; omega
    rw [h, List.cons_append, show ((c :: (t ++ l)).set ((t.length + n) + 1) v
      = c :: ((t ++ l).set (t.length + n) v)) from rfl, ih]
    rfl

/-- The two-pointer loop invariant: with the final prefix `a` and final
suffix `b` already in place and the untouched middle `m` between them,
the loop reverses exactly the middle. -/
theorem revLoop_spec (n : Nat) (m a b : List Nat) (hn : m.length = n) :
    revLoop (a ++ m ++ b) a.length (a.length + m.length - 1)
      = a ++ m.reverse ++ b := by
  induction n using Nat.strong_induction_on generalizing m a b with
  | _ n ih =>
  match m with
  | [] =>
    rw [revLoop, dif_neg (by simp)]
    simp
  | [x] =>
    rw [revLoop, dif_neg (by simp)]
    simp
  | x :: m1 =>
    rcases List.eq_nil_or_concat m1 with h1 | ⟨m2, y, h1⟩
    · subst h1
      rw [revLoop, dif_neg (by simp)]
      simp
    · subst h1
      simp only [List.concat_eq_append] at *
      have hlt : a.length < a.length + (x :: (m2 ++ [y])).length - 1 := by
        simp only [List.length_cons, List.length_append, List.length_nil]
        omega
      rw [revLoop, dif_pos hlt]
      have hT : a.length + (x :: (m2 ++ [y])).length - 1 = a.length + (m2.length + 1) := by
        simp only [List.length_cons, List.length_append, List.length_nil]
        omega
      rw [hT, List.append_assoc a (x :: (m2 ++ [y])) b, getD_append_add, getD_append_len]
      have hgy : ((x :: (m2 ++ [y])) ++ b).getD (m2.length + 1) 0 = y := by
        rw [List.cons_append, List.getD_cons_succ, List.append_assoc, getD_append_len]
        rfl
      have hgx : ((x :: (m2 ++ [y])) ++ b).getD 0 0 = x := by
        rw [List.cons_append]
        rfl
      rw [hgy, hgx, set_append_len, set_append_add]
      have hsets : ((x :: (m2 ++ [y])) ++ b).set 0 y = y :: ((m2 ++ [y]) ++ b) := by
        rw [List.cons_append]
        rfl
      rw [hsets]
      have hsett : (y :: ((m2 ++ [y]) ++ b)).set (m2.length + 1) x
          = y :: (m2 ++ (x :: b)) := by
        rw [show ((y :: ((m2 ++ [y]) ++ b)).set (m2.length + 1) x
          = y :: (((m2 ++ [y]) ++ b).set m2.length x)) from rfl,
          List.append_assoc, set_append_len]
        rfl
      rw [hsett]
      have harg : a ++ (y :: (m2 ++ (x :: b))) = ((a ++ [y]) ++ m2) ++ (x :: b) := by
        simp
      have hidx : a.length + 1 = (a ++ [y]).length := by simp
      have hidx2 : a.length + (m2.length + 1) - 1 = (a ++ [y]).length + m2.length - 1 := by
        simp only [List.length_append, List.length_cons, List.length_nil]
        omega
      rw [harg, hidx, hidx2, ih m2.length (by simp at hn; omega) m2 (a ++ [y]) (x :: b) rfl]
      simp

/-- The reverse loop started at `(0, length - 1)` reverses the list. -/
theorem revLoop_reverse (l : List Nat) : revLoop l 0 (l.length - 1) = l.reverse := by
  simpa using revLoop_spec l.length l [] [] rfl

theorem titleLoop_cons (c : Nat) (rest : List Nat) (flag : Bool) :
    titleLoop (c :: rest) flag =
      if flag ∧ 97 ≤ c ∧ c ≤ 122 then (c - 32) :: titleLoop rest false
      else if c = 32 then c :: titleLoop rest true
      else c :: titleLoop rest flag := rfl

/-- ASCII lowercase letter. -/
def isLow (c : Nat) : Prop := 97 ≤ c ∧ c ≤ 122

instance (c : Nat) : Decidable (isLow c) := by unfold isLow; infer_instance

/-- Position `i` of `l` is the byte the title-case loop will uppercase,
when the loop enters the list with capitalization flag `flag`: the byte is
lowercase, every earlier lowercase byte is followed by a later space still
before `i`, and (unless the flag was set on entry) some space occurs
before `i`. -/
def capPosF (flag : Bool) (l : List Nat) (i : Nat) : Prop :=
  isLow (l.getD i 0) ∧
  (∀ j, j < i → isLow (l.getD j 0) → ∃ k, k < i ∧ j < k ∧ l.getD k 0 = 32) ∧
  (flag = true ∨ ∃ k, k < i ∧ l.getD k 0 = 32)

instance (flag : Bool) (l : List Nat) (i : Nat) : Decidable (capPosF flag l i) := by
  unfold capPosF; infer_instance

theorem capPosF_cons_succ_low (flag : Bool) (c : Nat) (rest : List Nat) (i : Nat)
    (hflag : flag = true) (hlow : isLow c) :
    capPosF false rest i ↔ capPosF flag (c :: rest) (i + 1) := by
  subst hflag
  unfold capPosF
  simp only [List.getD_cons_succ]
  constructor
  · rintro ⟨h1, h2, h3⟩
    have hS : ∃ k, k < i ∧ rest.getD k 0 = 32 := by
      rcases h3 with h3 | h3
      · exact absurd h3 (by simp)
      · exact h3
    refine ⟨h1, ?_, Or.inl (by trivial)⟩
    intro j hj
    cases j with
    | zero =>
      intro _
      rcases hS with ⟨k, hk1, hk2⟩
      exact ⟨k + 1, by omega, by omega, by simpa using hk2⟩
    | succ j =>
      intro hjl
      simp only [List.getD_cons_succ] at hjl
      rcases h2 j (by omega) hjl with ⟨k, hk1, hk2, hk3⟩
      exact ⟨k + 1, by omega, by omega, by simpa using hk3⟩
  · rintro ⟨h1, h2, _⟩
    refine ⟨h1, ?_, ?_⟩
    · intro j hj hjl
      rcases h2 (j + 1) (by omega) (by simpa using hjl) with ⟨k, hk1, hk2, hk3⟩
      cases k with
      | zero => omega
      | succ k =>
        simp only [List.getD_cons_succ] at hk3
        exact ⟨k, by omega, by omega, hk3⟩
    · right
      rcases h2 0 (by omega) (by simpa using hlow) with ⟨k, hk1, hk2, hk3⟩
      cases k with
      | zero => omega
      | succ k =>
        simp only [List.getD_cons_succ] at hk3
        exact ⟨k, by omega, hk3⟩

theorem capPosF_cons_succ_space (flag : Bool) (rest : List Nat) (i : Nat) :
    capPosF true rest i ↔ capPosF flag (32 :: rest) (i + 1) := by
  unfold capPosF
  simp only [List.getD_cons_succ]
  constructor
  · rintro ⟨h1, h2, _⟩
    refine ⟨h1, ?_, ?_⟩
    · intro j hj
      cases j with
      | zero => intro hjl; exact absurd hjl (by simp [isLow])
      | succ j =>
        intro hjl
        simp only [List.getD_cons_succ] at hjl
        rcases h2 j (by omega) hjl with ⟨k, hk1, hk2, hk3⟩
        exact ⟨k + 1, by omega, by omega, by simpa using hk3⟩
    · right
      exact ⟨0, by omega, by simp⟩
  · rintro ⟨h1, h2, _⟩
    refine ⟨h1, ?_, Or.inl (by trivial)⟩
    intro j hj hjl
    rcases h2 (j + 1) (by omega) (by simpa using hjl) with ⟨k, hk1, hk2, hk3⟩
    cases k with
    | zero => omega
    | succ k =>
      simp only [List.getD_cons_succ] at hk3
      exact ⟨k, by omega, by omega, hk3⟩

theorem capPosF_cons_succ_other (flag : Bool) (c : Nat) (rest : List Nat) (i : Nat)
    (hcond : ¬(flag = true ∧ isLow c)) (hspace : c ≠ 32) :
    capPosF flag rest i ↔ capPosF flag (c :: rest) (i + 1) := by
  unfold capPosF
  simp only [List.getD_cons_succ]
  constructor
  · rintro ⟨h1, h2, h3⟩
    refine ⟨h1, ?_, ?_⟩
    · intro j hj
      cases j with
      | zero =>
        intro hjl
        simp only [List.getD_cons_zero] at hjl
        -- c is lowercase: then the flag must be false, so h3 gives a space
        have hfl : flag = false := by
          cases flag
          · rfl
          · exact absurd ⟨rfl, hjl⟩ hcond
        rcases h3 with h3 | ⟨k, hk1, hk2⟩
        · rw [hfl] at h3; exact absurd h3 (by simp)
        · exact ⟨k + 1, by omega, by omega, by simpa using hk2⟩
      | succ j =>
        intro hjl
        simp only [List.getD_cons_succ] at hjl
        rcases h2 j (by omega) hjl with ⟨k, hk1, hk2, hk3⟩
        exact ⟨k + 1, by omega, by omega, by simpa using hk3⟩
    · rcases h3 with h3 | ⟨k, hk1, hk2⟩
      · exact Or.inl h3
      · exact Or.inr ⟨k + 1, by omega, by simpa using hk2⟩
  · rintro ⟨h1, h2, h3⟩
    refine ⟨h1, ?_, ?_⟩
    · intro j hj hjl
      rcases h2 (j + 1) (by omega) (by simpa using hjl) with ⟨k, hk1, hk2, hk3⟩
      cases k with
      | zero => omega
      | succ k =>
        simp only [List.getD_cons_succ] at hk3
        exact ⟨k, by omega, by omega, hk3⟩
    · rcases h3 with h3 | ⟨k, hk1, hk2⟩
      · exact Or.inl h3
      · cases k with
        | zero => simp only [List.getD_cons_zero] at hk2; exact absurd hk2 hspace
        | succ k =>
          simp only [List.getD_cons_succ] at hk2
          exact Or.inr ⟨k, by omega, hk2⟩

theorem titleLoop_spec (l : List Nat) (flag : Bool) :
    (titleLoop l flag).length = l.length ∧
    ∀ i, i < l.length → (titleLoop l flag).getD i 0 =
      if capPosF flag l i then l.getD i 0 - 32 else l.getD i 0 := by
  induction l generalizing flag with
  | nil => exact ⟨rfl, fun i hi => by simp at hi⟩
  | cons c rest ih =>
    by_cases hA : flag = true ∧ isLow c
    · rw [titleLoop_cons, if_pos ⟨hA.1, hA.2.1, hA.2.2⟩]
      refine ⟨by simpa using (ih false).1, ?_⟩
      intro i hi
      cases i with
      | zero =>
        have hcp : capPosF flag (c :: rest) 0 := by
          refine ⟨by simpa using hA.2, fun j hj => by omega, Or.inl hA.1⟩
        rw [if_pos hcp]
        rfl
      | succ i =>
        have hrec := (ih false).2 i (by simpa using hi)
        rw [List.getD_cons_succ, hrec, List.getD_cons_succ]
        by_cases hcp : capPosF false rest i
        · rw [if_pos hcp, if_pos ((capPosF_cons_succ_low flag c rest i hA.1 hA.2).mp hcp)]
        · rw [if_neg hcp, if_neg (fun hc =>
            hcp ((capPosF_cons_succ_low flag c rest i hA.1 hA.2).mpr hc))]
    · by_cases hB : c = 32
      · subst hB
        rw [titleLoop_cons, if_neg (fun h => hA ⟨h.1, h.2.1, h.2.2⟩), if_pos rfl]
        refine ⟨by simpa using (ih true).1, ?_⟩
        intro i hi
        cases i with
        | zero =>
          have hcp : ¬ capPosF flag (32 :: rest) 0 := by
            rintro ⟨h1, _, _⟩
            simp [isLow] at h1
          rw [if_neg hcp]
          rfl
        | succ i =>
          have hrec := (ih true).2 i (by simpa using hi)
          rw [List.getD_cons_succ, hrec, List.getD_cons_succ]
          by_cases hcp : capPosF true rest i
          · rw [if_pos hcp, if_pos ((capPosF_cons_succ_space flag rest i).mp hcp)]
          · rw [if_neg hcp, if_neg (fun hc =>
              hcp ((capPosF_cons_succ_space flag rest i).mpr hc))]
      · rw [titleLoop_cons, if_neg (fun h => hA ⟨h.1, h.2.1, h.2.2⟩), if_neg hB]
        refine ⟨by simpa using (ih flag).1, ?_⟩
        intro i hi
        cases i with
        | zero =>
          have hcp : ¬ capPosF flag (c :: rest) 0 := by
            rintro ⟨h1, _, h3⟩
            simp only [List.getD_cons_zero] at h1
            rcases h3 with h3 | ⟨k, hk, _⟩
            · exact hA ⟨h3, h1⟩
            · omega
          rw [if_neg hcp]
          rfl
        | succ i =>
          have hrec := (ih flag).2 i (by simpa using hi)
          rw [List.getD_cons_succ, hrec, List.getD_cons_succ]
          by_cases hcp : capPosF flag rest i
          · rw [if_pos hcp, if_pos ((capPosF_cons_succ_other flag c rest i hA hB).mp hcp)]
          · rw [if_neg hcp, if_neg (fun hc =>
              hcp ((capPosF_cons_succ_other flag c rest i hA hB).mpr hc))]

/-! ## Claim theorems -/

/-- C6: starting from a fresh handle, `str_add a` then `str_add b` both
succeed, the content is the concatenation `a ++ b`, and `str_get_size`
returns `len a + len b`. -/
theorem C6_append_append (a b : List Nat) (ha : CText a) (hb : CText b) :
    (str_add (some str_init) (some a)).1 = 0 ∧
    (str_add (str_add (some str_init) (some a)).2 (some b)).1 = 0 ∧
    contentOf (str_add (str_add (some str_init) (some a)).2 (some b)).2 = some (a ++ b) ∧
    str_get_size (str_add (str_add (some str_init) (some a)).2 (some b)).2
      = a.length + b.length := by
  simp [str_add, str_init, contentOf, str_get_size]

/-- Witness for C6 at `a = "h"`, `b = "i"`. -/
theorem C6_append_append_witness :
    (str_add (some str_init) (some [104])).1 = 0 ∧
    (str_add (str_add (some str_init) (some [104])).2 (some [105])).1 = 0 ∧
    contentOf (str_add (str_add (some str_init) (some [104])).2 (some [105])).2
      = some ([104] ++ [105]) ∧
    str_get_size (str_add (str_add (some str_init) (some [104])).2 (some [105])).2
      = [104].length + [105].length :=
  C6_append_append [104] [105] (by decide) (by decide)

/-- C7: every in-place transform operation called on a handle whose
content is absent fails with the invalid-argument code `-1` and leaves the
handle untouched; in particular `str_reverse` on a fresh handle fails. -/
theorem C7_transform_on_absent (op : SOp) (s : Str) (stream : List Nat)
    (hop : isTransform op = true) (hs : s.data = none) :
    runOp op (some s) stream = (-1, some s) := by
  cases op <;>
    simp_all [runOp, isTransform, str_pop_back, str_rem_word, str_swap_word,
      str_to_upper, str_to_lower, str_to_title_case, str_reverse]

/-- Witness for C7: `str_reverse` on the fresh handle `str_init`. -/
theorem C7_transform_on_absent_witness :
    runOp .reverse (some str_init) [] = (-1, some str_init) :=
  C7_transform_on_absent .reverse str_init [] rfl rfl

/-- C10: `str_rem_word` with an empty (but non-absent) needle on any
present content succeeds with code 0 and changes neither the content nor
its length. -/
theorem C10_empty_needle (l : List Nat) (dyn : Bool) :
    str_rem_word (some ⟨some l, dyn⟩) (some []) = (0, some ⟨some l, dyn⟩) ∧
    str_get_size (str_rem_word (some ⟨some l, dyn⟩) (some [])).2 = l.length := by
  simp [str_rem_word, strstrIdx_nil, str_get_size]

/-- C3: in this model allocation always succeeds, so every failure any
operation can report is one of the non-out-of-memory conditions
(invalid argument, not found, already present, input failure); each such
failure leaves the handle's observable content exactly as it was. -/
theorem C3_failure_atomic (op : SOp) (s : Option Str) (stream : List Nat)
    (h : (runOp op s stream).1 ≠ 0) :
    contentOf (runOp op s stream).2 = contentOf s := by
  cases op with
  | add d =>
    rcases s with _ | ⟨_ | l, dyn⟩ <;> rcases d with _ | d <;>
      simp_all [runOp, str_add, contentOf]
  | input =>
    rcases s with _ | ⟨_ | l, dyn⟩ <;>
      rcases hg : get_dyn_input MAX_STRING_SIZE stream with _ | l' <;>
      simp_all [runOp, str_input, contentOf]
  | addInput =>
    rcases s with _ | ⟨_ | l, dyn⟩
    · simp_all [runOp, str_add_input, contentOf]
    · rcases hg : get_dyn_input MAX_STRING_SIZE stream with _ | l' <;>
        simp_all [runOp, str_add_input, contentOf]
    · rcases hg : get_dyn_input (szSub MAX_STRING_SIZE l.length) stream with _ | l' <;>
        simp_all [runOp, str_add_input, contentOf]
  | popBack sep =>
    rcases s with _ | ⟨_ | l, dyn⟩
    · simp_all [runOp, str_pop_back, contentOf]
    · simp_all [runOp, str_pop_back, contentOf]
    · rcases hidx : strrchrIdx l sep with _ | i <;>
        simp_all [runOp, str_pop_back, contentOf] <;>
        split_ifs at h ⊢ <;> simp_all
  | remWord nd =>
    rcases s with _ | ⟨_ | l, dyn⟩ <;> rcases nd with _ | nd <;>
      try simp_all [runOp, str_rem_word, contentOf]
    rcases hidx : strstrIdx l nd with _ | i <;>
      simp_all [runOp, str_rem_word, contentOf] <;>
      split_ifs at h ⊢ <;> simp_all
  | swapWord w1 w2 =>
    rcases s with _ | ⟨_ | l, dyn⟩
    · simp_all [runOp, str_swap_word, contentOf]
    · simp_all [runOp, str_swap_word, contentOf]
    · cases dyn
      · simp_all [runOp, str_swap_word, contentOf]
      · rcases w1 with _ | w1
        · simp_all [runOp, str_swap_word, contentOf]
        · rcases w2 with _ | w2
          · simp_all [runOp, str_swap_word, contentOf]
          · rcases hidx : strstrIdx l w1 with _ | i <;>
              simp_all [runOp, str_swap_word, contentOf]
  | toUpper =>
    rcases s with _ | ⟨_ | l, dyn⟩ <;> simp_all [runOp, str_to_upper, contentOf]
  | toLower =>
    rcases s with _ | ⟨_ | l, dyn⟩ <;> simp_all [runOp, str_to_lower, contentOf]
  | toTitle =>
    rcases s with _ | ⟨_ | l, dyn⟩ <;>
      simp_all [runOp, str_to_title_case, contentOf] <;>
      split_ifs at h ⊢ <;> simp_all
  | reverse =>
    rcases s with _ | ⟨_ | l, dyn⟩ <;>
      simp_all [runOp, str_reverse, contentOf] <;>
      split_ifs at h ⊢ <;> simp_all

/-- C8: on a heap-owned handle whose content has its first occurrence of
`w1` at position `i`, `str_swap_word` succeeds and yields exactly the
prefix before that occurrence, then `w2`, then the suffix after it (later
occurrences untouched); and on a stack-resident handle (`is_dynamic =
false`) the same call fails with `-1` and changes nothing. -/
theorem C8_swap_first_occurrence (l w1 w2 : List Nat) (i : Nat)
    (hl : CText l) (h1 : CText w1) (h2 : CText w2)
    (hOcc : matchesAt (l.drop i) w1 = true)
    (hFirst : ∀ j, j < i → matchesAt (l.drop j) w1 = false) :
    str_swap_word (some ⟨some l, true⟩) (some w1) (some w2)
      = (0, some ⟨some (l.take i ++ w2 ++ l.drop (i + w1.length)), true⟩) ∧
    str_swap_word (some ⟨some l, false⟩) (some w1) (some w2)
      = (-1, some ⟨some l, false⟩) := by
  have hs := strstrIdx_of_first l w1 i hOcc hFirst
  constructor
  · simp [str_swap_word, hs]
  · simp [str_swap_word]

/-- Witness for C8 at content `"x y x"`, `w1 = "x"`, `w2 = "zz"`: only the
occurrence at position 0 is replaced. -/
theorem C8_swap_first_occurrence_witness :
    str_swap_word (some ⟨some [120, 32, 121, 32, 120], true⟩) (some [120]) (some [122, 122])
      = (0, some ⟨some ([120, 32, 121, 32, 120].take 0 ++ [122, 122] ++
          [120, 32, 121, 32, 120].drop (0 + [120].length)), true⟩) ∧
    str_swap_word (some ⟨some [120, 32, 121, 32, 120], false⟩) (some [120]) (some [122, 122])
      = (-1, some ⟨some [120, 32, 121, 32, 120], false⟩) :=
  C8_swap_first_occurrence [120, 32, 121, 32, 120] [120] [122, 122] 0
    (by decide) (by decide) (by decide) (by decide) (by omega)

/-- C9: `str_reverse` on non-empty content succeeds with the byte
sequence reversed — each byte at position `i` moves to position
`length - 1 - i` — and applying it twice restores the original content
(the sentinel is outside the modelled content and is never touched). -/
theorem C9_reverse_involution (l : List Nat) (dyn : Bool) (hl : CText l)
    (hne : l ≠ []) :
    str_reverse (some ⟨some l, dyn⟩) = (0, some ⟨some l.reverse, dyn⟩) ∧
    str_reverse ((str_reverse (some ⟨some l, dyn⟩)).2) = (0, some ⟨some l, dyn⟩) ∧
    (∀ i, i < l.length → l.reverse.getD i 0 = l.getD (l.length - 1 - i) 0) := by
  have hlen : l.length ≠ 0 := fun h => hne (List.length_eq_zero.mp h)
  have hone : str_reverse (some ⟨some l, dyn⟩) = (0, some ⟨some l.reverse, dyn⟩) := by
    simp [str_reverse, hlen, revLoop_reverse]
  refine ⟨hone, ?_, ?_⟩
  · have hlen2 : l.reverse.length ≠ 0 := by simpa using hlen
    have h3 : revLoop l.reverse 0 (l.length - 1) = l := by
      have h4 := revLoop_reverse l.reverse
      rwa [List.length_reverse, List.reverse_reverse] at h4
    rw [hone]
    simp [str_reverse, hlen2, h3, hne]
  · intro i hi
    have hi2 : i < l.reverse.length := by simpa using hi
    have hi3 : l.length - 1 - i < l.length := by omega
    rw [List.getD_eq_getElem l.reverse 0 hi2, List.getD_eq_getElem l 0 hi3,
      List.getElem_reverse]

/-- Witness for C9 at content `"hello"`. -/
theorem C9_reverse_involution_witness :
    str_reverse (some ⟨some [104, 101, 108, 108, 111], true⟩)
      = (0, some ⟨some [104, 101, 108, 108, 111].reverse, true⟩) ∧
    str_reverse ((str_reverse (some ⟨some [104, 101, 108, 108, 111], true⟩)).2)
      = (0, some ⟨some [104, 101, 108, 108, 111], true⟩) ∧
    (∀ i, i < [104, 101, 108, 108, 111].length →
      [104, 101, 108, 108, 111].reverse.getD i 0
        = [104, 101, 108, 108, 111].getD ([104, 101, 108, 108, 111].length - 1 - i) 0) :=
  C9_reverse_involution [104, 101, 108, 108, 111] true (by decide) (by decide)

/-- Witness for C3: `str_rem_word` with a needle that does not occur. -/
theorem C3_failure_atomic_witness :
    (runOp (.remWord (some [120])) (some ⟨some [97, 98], true⟩) []).1 ≠ 0 ∧
    contentOf (runOp (.remWord (some [120])) (some ⟨some [97, 98], true⟩) []).2
      = contentOf (some ⟨some [97, 98], true⟩) :=
  ⟨by decide, C3_failure_atomic (.remWord (some [120])) (some ⟨some [97, 98], true⟩) []
    (by decide)⟩

/-- C1 fails on the code: on content `"Hi"` the claim demands that the
already-uppercase `H` count as the capitalized first alphabetic byte, so
that no later byte of the word is altered and the content stays `"Hi"`;
but the loop only clears its flag on a byte it actually uppercases, so it
uppercases the `i` and produces `"HI"`. -/
theorem C1_counterexample :
    str_to_title_case (some ⟨some [72, 105], true⟩) = (0, some ⟨some [72, 73], true⟩) ∧
    some ([72, 73] : List Nat) ≠ some [72, 105] := by
  exact ⟨by decide, by decide⟩

/-- C1 amended: `str_to_title_case` on non-empty content succeeds and
uppercases exactly the positions `i` satisfying `capPosF true l i` — the
first LOWERCASE byte of the string and the first LOWERCASE byte after each
space not already preceded (since that space) by another lowercase byte;
an already-uppercase byte does not satisfy the loop's flag and so does not
shield the rest of its word.  All other bytes, including bytes outside the
ASCII alphabetic range, are unchanged. -/
theorem C1_amended_title_case (l : List Nat) (dyn : Bool) (hl : CText l)
    (hne : l ≠ []) :
    (str_to_title_case (some ⟨some l, dyn⟩)).1 = 0 ∧
    ∃ r, (str_to_title_case (some ⟨some l, dyn⟩)).2 = some ⟨some r, dyn⟩ ∧
      r.length = l.length ∧
      ∀ i, i < l.length →
        r.getD i 0 = if capPosF true l i then l.getD i 0 - 32 else l.getD i 0 := by
  have hlen : l.length ≠ 0 := fun h => hne (List.length_eq_zero.mp h)
  have hspec := titleLoop_spec l true
  exact ⟨by simp [str_to_title_case, hlen], titleLoop l true,
    by simp [str_to_title_case, hlen], hspec.1, hspec.2⟩

/-- Witness for C1 (amended) at content `"hi hi"`. -/
theorem C1_amended_title_case_witness :
    (str_to_title_case (some ⟨some [104, 105, 32, 104, 105], true⟩)).1 = 0 ∧
    ∃ r, (str_to_title_case (some ⟨some [104, 105, 32, 104, 105], true⟩)).2
        = some ⟨some r, true⟩ ∧
      r.length = [104, 105, 32, 104, 105].length ∧
      ∀ i, i < [104, 105, 32, 104, 105].length →
        r.getD i 0 = if capPosF true [104, 105, 32, 104, 105] i
          then [104, 105, 32, 104, 105].getD i 0 - 32
          else [104, 105, 32, 104, 105].getD i 0 :=
  C1_amended_title_case [104, 105, 32, 104, 105] true (by decide) (by decide)

theorem strrchrIdx_eq_none_iff (l : List Nat) (s : Nat) :
    strrchrIdx l s = none ↔ s ∉ l := by
  induction l with
  | nil => simp [strrchrIdx]
  | cons c rest ih =>
    rcases h : strrchrIdx rest s with _ | i
    · by_cases hc : c = s <;> simp [strrchrIdx, h, hc, ← ih] <;> omega
    · have : s ∈ rest := by
        by_contra hmem
        rw [(ih.mpr hmem : strrchrIdx rest s = none)] at h
        exact Option.noConfusion h
      simp [strrchrIdx, h, this]

theorem strstrIdx_eq_none_iff (hay nd : List Nat) :
    strstrIdx hay nd = none ↔ ∀ i, matchesAt (hay.drop i) nd = false := by
  induction hay with
  | nil =>
    constructor
    · intro h i
      simp only [List.drop_nil]
      by_cases hm : matchesAt [] nd = true
      · simp [strstrIdx, hm] at h
      · simpa using hm
    · intro h
      have h0 := h 0
      simp only [List.drop_nil] at h0
      simp [strstrIdx, h0]
  | cons c t ih =>
    by_cases hm : matchesAt (c :: t) nd = true
    · constructor
      · intro h
        simp [strstrIdx, hm] at h
      · intro h
        exact absurd (h 0) (by simp [hm])
    · have hm2 : matchesAt (c :: t) nd = false := by simpa using hm
      constructor
      · intro h i
        cases i with
        | zero => simpa using hm2
        | succ i =>
          simp only [List.drop_succ_cons]
          have ht : strstrIdx t nd = none := by
            by_contra hx
            rcases Option.ne_none_iff_exists.mp hx with ⟨j, hj⟩
            simp [strstrIdx, hm2, ← hj] at h
          exact ih.mp ht i
      · intro h
        have ht : strstrIdx t nd = none := ih.mpr (fun i => by simpa using h (i + 1))
        simp [strstrIdx, hm2, ht]

/-- C5 fails on the code: in `str_rem_word` the over-long-needle case
(which the claim requires to be InvalidArgument) and the needle-not-found
case (which the claim requires to be a distinct NotFound condition) both
return the same status value `-EINVAL = -22`, so the two conditions are
not distinguishable. -/
theorem C5_counterexample :
    str_rem_word (some ⟨some [97, 98], true⟩) (some [99, 99, 99])
      = (-22, some ⟨some [97, 98], true⟩) ∧
    str_rem_word (some ⟨some [97, 98], true⟩) (some [120, 121])
      = (-22, some ⟨some [97, 98], true⟩) ∧
    ([99, 99, 99] : List Nat).length > ([97, 98] : List Nat).length ∧
    (∀ i, matchesAt (([97, 98] : List Nat).drop i) [120, 121] = false) := by
  refine ⟨by decide, by decide, by decide, ?_⟩
  intro i
  match i with
  | 0 => decide
  | 1 => decide
  | (n + 2) =>
    have hdrop : ([97, 98] : List Nat).drop (n + 2) = [] := by
      apply List.drop_eq_nil_of_le
      simp only [List.length_cons, List.length_nil]
      omega
    simp [hdrop, matchesAt]

/-- C5 amended: the exact status values. `str_pop_back` returns `-1` for
an absent handle, absent content or empty content and `-EINVAL` (-22) when
the separator does not occur; `str_rem_word` returns `-1` for an absent
handle, absent content or absent needle, and `-EINVAL` both when the
needle is longer than the content and when the needle does not occur — so
the not-found condition is reported with the same code as the over-long
invalid-argument case, not a distinct one. -/
theorem C5_amended_error_codes :
    (∀ sep, str_pop_back none sep = (-1, none)) ∧
    (∀ dyn sep, str_pop_back (some ⟨none, dyn⟩) sep = (-1, some ⟨none, dyn⟩)) ∧
    (∀ dyn sep, str_pop_back (some ⟨some [], dyn⟩) sep = (-1, some ⟨some [], dyn⟩)) ∧
    (∀ l dyn sep, CText l → l ≠ [] → sep ≠ 0 → sep ∉ l →
      str_pop_back (some ⟨some l, dyn⟩) sep = (-22, some ⟨some l, dyn⟩)) ∧
    (∀ nd, str_rem_word none nd = (-1, none)) ∧
    (∀ dyn nd, str_rem_word (some ⟨none, dyn⟩) nd = (-1, some ⟨none, dyn⟩)) ∧
    (∀ l dyn, str_rem_word (some ⟨some l, dyn⟩) none = (-1, some ⟨some l, dyn⟩)) ∧
    (∀ l nd dyn, CText l → CText nd → nd.length > l.length →
      str_rem_word (some ⟨some l, dyn⟩) (some nd) = (-22, some ⟨some l, dyn⟩)) ∧
    (∀ l nd dyn, CText l → CText nd → nd.length ≤ l.length →
      (∀ i, matchesAt (l.drop i) nd = false) →
      str_rem_word (some ⟨some l, dyn⟩) (some nd) = (-22, some ⟨some l, dyn⟩)) := by
  refine ⟨fun sep => rfl, fun dyn sep => rfl, fun dyn sep => rfl, ?_,
    fun nd => rfl, fun dyn nd => rfl, fun l dyn => rfl, ?_, ?_⟩
  · intro l dyn sep hl hne hsep hmem
    have hlen : l.length ≠ 0 := fun h => hne (List.length_eq_zero.mp h)
    have hidx : strrchrIdx l sep = none := (strrchrIdx_eq_none_iff l sep).mpr hmem
    simp [str_pop_back, hlen, hsep, hidx]
  · intro l nd dyn hl hnd hlong
    simp [str_rem_word, hlong]
  · intro l nd dyn hl hnd hlen hnf
    have hidx : strstrIdx l nd = none := (strstrIdx_eq_none_iff l nd).mpr hnf
    simp [str_rem_word, hidx]

/-- Witness for C5 (amended): separator-not-found in `str_pop_back` at
content `"a"`, separator `b`, and needle-not-found in `str_rem_word` at
content `"ab"`, needle `"xy"`. -/
theorem C5_amended_error_codes_witness :
    str_pop_back (some ⟨some [97], true⟩) 98 = (-22, some ⟨some [97], true⟩) ∧
    str_rem_word (some ⟨some [97, 98], true⟩) (some [120, 121])
      = (-22, some ⟨some [97, 98], true⟩) := by
  constructor
  · exact C5_amended_error_codes.2.2.2.1 [97] true 98 (by decide) (by decide)
      (by decide) (by decide)
  · refine C5_amended_error_codes.2.2.2.2.2.2.2.2 [97, 98] [120, 121] true
      (by decide) (by decide) (by decide) ?_
    intro i
    match i with
    | 0 => decide
    | 1 => decide
    | (n + 2) =>
      have hdrop : ([97, 98] : List Nat).drop (n + 2) = [] := by
        apply List.drop_eq_nil_of_le
        simp only [List.length_cons, List.length_nil]
        omega
      simp [hdrop, matchesAt]

/-- The staging capacity of `get_dyn_input` on entry to the iteration that
stores the byte at index `len`: `CHUNK_SIZE` rounds of growth. -/
def gdiCap (len : Nat) : Nat := 10 * (1 + len / 10)

theorem gdiCap_step (L : Nat) :
    (if L + 1 ≥ gdiCap L then gdiCap L + 10 else gdiCap L) = gdiCap (L + 1) := by
  unfold gdiCap
  split_ifs <;> omega

theorem gdiCap_mono {a b : Nat} (h : a ≤ b) : gdiCap a ≤ gdiCap b := by
  unfold gdiCap
  have := Nat.div_le_div_right (c := 10) h
  omega

theorem gdiLoop_cons (maxm1 cs : Nat) (acc : List Nat) (c : Nat) (rest : List Nat) :
    gdiLoop maxm1 cs acc (c :: rest) =
      if c = 10 then some acc
      else
        if (if acc.length + 1 ≥ cs then cs + 10 else cs) ≥ maxm1 then none
        else gdiLoop maxm1 (if acc.length + 1 ≥ cs then cs + 10 else cs)
          (acc ++ [c]) rest := rfl

/-- Characterization of the `get_dyn_input` loop: entered with capacity
`gdiCap acc.length`, it aborts exactly when some byte of the line pushes
the capacity to the bound, and otherwise appends the whole line. -/
theorem gdiLoop_eq (maxm1 : Nat) (stream : List Nat) : ∀ (acc : List Nat),
    gdiLoop maxm1 (gdiCap acc.length) acc stream =
      if ∃ k, k < (streamLine stream).length ∧ gdiCap (acc.length + k + 1) ≥ maxm1
      then none
      else some (acc ++ streamLine stream) := by
  induction stream with
  | nil =>
    intro acc
    simp [gdiLoop, streamLine]
  | cons c rest ih =>
    intro acc
    by_cases hc : c = 10
    · subst hc
      simp [gdiLoop, streamLine]
    · have hline : streamLine (c :: rest) = c :: streamLine rest := by
        simp [streamLine, hc]
      rw [gdiLoop_cons, if_neg hc, gdiCap_step acc.length, hline]
      by_cases habort : gdiCap (acc.length + 1) ≥ maxm1
      · rw [if_pos habort, if_pos ⟨0, by simp, by simpa using habort⟩]
      · have hlen : (acc ++ [c]).length = acc.length + 1 := by simp
        have hrec := ih (acc ++ [c])
        rw [hlen] at hrec
        rw [if_neg habort, hrec]
        by_cases hex : ∃ k, k < (streamLine rest).length ∧
            gdiCap (acc.length + 1 + k + 1) ≥ maxm1
        · rcases hex with ⟨k, hk, hgk⟩
          rw [if_pos ⟨k, hk, hgk⟩, if_pos ⟨k + 1, by simp; omega, by
            have e : acc.length + (k + 1) + 1 = acc.length + 1 + k + 1 := by omega
            rw [e]; exact hgk⟩]
        · rw [if_neg hex, if_neg (by
            rintro ⟨k, hk, hgk⟩
            cases k with
            | zero => exact habort (by simpa using hgk)
            | succ k =>
              refine hex ⟨k, by simp at hk; omega, ?_⟩
              have e : acc.length + 1 + k + 1 = acc.length + (k + 1) + 1 := by omega
              rw [e]; exact hgk)]
          simp

/-- C2 fails on the code: with `max_str_size = 15` a 10-byte line is
rejected (`get_dyn_input` returns NULL) although its accumulated size
(10 bytes, 11 with the terminator) stays below the bound: the abort
compares the staging CAPACITY, which has just grown from 10 to 20, against
`max_str_size - 1`, not the accumulated length. -/
theorem C2_counterexample :
    get_dyn_input 15 (List.replicate 10 97) = none ∧
    (streamLine (List.replicate 10 97)).length + 1 < 15 := by
  constructor
  · rfl
  · decide

/-- C2 amended: `get_dyn_input` collects the bytes before the first
newline (or end of stream) and fails exactly when the line is non-empty
and the staging capacity reached while storing its last byte,
`10 * (1 + n / 10)` for line length `n`, reaches or exceeds
`max_str_size - 1` computed in size_t (so `max_str_size = 0` wraps and
never fails); otherwise it returns exactly the collected line, an empty
line yielding an empty, non-absent string. -/
theorem C2_amended_input_bound (m : Nat) (stream : List Nat)
    (htext : CText (streamLine stream)) :
    get_dyn_input m stream =
      if 1 ≤ (streamLine stream).length ∧ gdiCap (streamLine stream).length ≥ szm1 m
      then none
      else some (streamLine stream) := by
  have hloop := gdiLoop_eq (szm1 m) stream []
  have hcap0 : (10 : Nat) = gdiCap ([] : List Nat).length := rfl
  unfold get_dyn_input
  rw [hcap0, hloop]
  have hiff : (∃ k, k < (streamLine stream).length ∧
      gdiCap (([] : List Nat).length + k + 1) ≥ szm1 m) ↔
      (1 ≤ (streamLine stream).length ∧ gdiCap (streamLine stream).length ≥ szm1 m) := by
    constructor
    · rintro ⟨k, hk, hgk⟩
      refine ⟨by omega, le_trans (le_trans hgk (gdiCap_mono (by simp; omega))) (le_refl _)⟩
    · rintro ⟨h1, h2⟩
      exact ⟨(streamLine stream).length - 1, by omega, by
        have e : ([] : List Nat).length + ((streamLine stream).length - 1) + 1
            = (streamLine stream).length := by simp; omega
        rw [e]; exact h2⟩
  by_cases hex : ∃ k, k < (streamLine stream).length ∧
      gdiCap (([] : List Nat).length + k + 1) ≥ szm1 m
  · rw [if_pos hex, if_pos (hiff.mp hex)]
    rfl
  · rw [if_neg hex, if_neg (fun h => hex (hiff.mpr h))]
    have htake : (streamLine stream).takeWhile (fun b => b ≠ 0) = streamLine stream :=
      List.takeWhile_eq_self_iff.mpr (fun b hb => by
        have := htext b hb
        simp
        omega)
    simp [htake]
    intro x hx
    have := htext x hx
    omega

/-- Witness for C2 (amended) at `max_str_size = 15` and the line `"aaaa"`
followed by a newline: 4 bytes stay well under the capacity bound. -/
theorem C2_amended_input_bound_witness :
    get_dyn_input 15 (List.replicate 4 97 ++ [10, 98]) =
      if 1 ≤ (streamLine (List.replicate 4 97 ++ [10, 98])).length ∧
        gdiCap (streamLine (List.replicate 4 97 ++ [10, 98])).length ≥ szm1 15
      then none
      else some (streamLine (List.replicate 4 97 ++ [10, 98])) :=
  C2_amended_input_bound 15 (List.replicate 4 97 ++ [10, 98]) (by decide)

/-- C4 fails on the code: on the empty registry, `pointer_counter_add h`
then `pointer_counter_free h` both report success, but the head-match
branch of `pointer_counter_free` frees the head node WITHOUT resetting the
caller's head pointer, so the registry is left with its head dangling on
the freed node — it is not returned to a state with no node referencing
`h` (the reachable chain is undefined, and the head is not NULL). -/
theorem C4_counterexample :
    pointer_counter_add ⟨[], none⟩ 1
      = some (0, ⟨[some ⟨1, none, 1⟩], some 0⟩) ∧
    pointer_counter_free ⟨[some ⟨1, none, 1⟩], some 0⟩ 1
      = some (0, ⟨[none], some 0⟩) ∧
    regChain ⟨[none], some 0⟩ = none ∧
    RegState.head ⟨[none], some 0⟩ ≠ none := by
  refine ⟨by decide, by decide, by decide, by decide⟩

/-- C4 amended: the add-then-remove round trip behaves as claimed only in
the narrow case of a registry holding exactly one properly terminated node
for a different handle (and a positive scan counter): there `add h` then
`free h` succeed, the new node is unlinked and freed, and the reachable
chain again consists of exactly the original node, which does not
reference `h`.  (On the empty registry the freed head is left dangling,
and with two or more pre-existing nodes the scan — bounded by the head
counter, which every add leaves at 1 — falls off the end of the function.) -/
theorem C4_amended_single_node (k c h : Nat) (hk : k ≠ 0) (hh : h ≠ 0)
    (hne : k ≠ h) (hc : 1 ≤ c) :
    pointer_counter_add ⟨[some ⟨k, none, c⟩], some 0⟩ h
      = some (0, ⟨[some ⟨k, some 1, c⟩, some ⟨h, none, 1⟩], some 0⟩) ∧
    pointer_counter_free ⟨[some ⟨k, some 1, c⟩, some ⟨h, none, 1⟩], some 0⟩ h
      = some (0, ⟨[some ⟨k, none, c⟩, none], some 0⟩) ∧
    regChain ⟨[some ⟨k, none, c⟩, none], some 0⟩ = some [⟨k, none, c⟩] ∧
    (∀ nd ∈ [(⟨k, none, c⟩ : RNode)], nd.str_ptr ≠ h) := by
  obtain ⟨c1, rfl⟩ : ∃ c1, c = c1 + 1 := ⟨c - 1, by omega⟩
  refine ⟨?_, ?_, ?_, ?_⟩
  · simp [pointer_counter_add, walkTail, hh, List.getD]
  · simp [pointer_counter_free, freeLoop, hh, hne, List.getD]
  · simp [regChain, chainFrom, List.getD]
  · simpa using fun hcon => hne hcon

/-- Witness for C4 (amended) at a registry holding handle 2, adding and
removing handle 1. -/
theorem C4_amended_single_node_witness :
    pointer_counter_add ⟨[some ⟨2, none, 1⟩], some 0⟩ 1
      = some (0, ⟨[some ⟨2, some 1, 1⟩, some ⟨1, none, 1⟩], some 0⟩) ∧
    pointer_counter_free ⟨[some ⟨2, some 1, 1⟩, some ⟨1, none, 1⟩], some 0⟩ 1
      = some (0, ⟨[some ⟨2, none, 1⟩, none], some 0⟩) ∧
    regChain ⟨[some ⟨2, none, 1⟩, none], some 0⟩ = some [⟨2, none, 1⟩] ∧
    (∀ nd ∈ [(⟨2, none, 1⟩ : RNode)], nd.str_ptr ≠ 1) :=
  C4_amended_single_node 2 1 1 (by decide) (by decide) (by decide) (by decide)

end Strutil
